import Mathlib

/-!
Verification development for the `curves` library excerpt
(`DiscreteSE3Curve.hpp` and `LinearInterpolationVectorSpaceCurve.cpp`).

The excerpt contains: the `SamplingPolicy::extend<DiscreteSE3Curve, SE3>`
template specialization (the streaming decimation policy), and the
`LinearInterpolationVectorSpaceCurve` member functions `fitCurve`,
`evaluate`, `extend`, `evaluateDerivative`, `getEvaluator`,
`setTimeRange` and accessors.

The coefficient manager (`LocalSupport2CoefficientManager` /
`CoefficientManager`) is declared and called in the excerpt but its
implementation is not part of it; its operations are modelled from the
spec (§4.1), as marked on each definition.

Modelling conventions:
* `Time` is the signed integer time type (nanoseconds), embedded as `Int`.
* `Key` is the process-unique coefficient identifier, embedded as `Nat`;
  a manager carries the next key to assign, and keys are assigned
  monotonically and never reused.
* Coefficient values (`Eigen::VectorXd` for the vector-space curve, the
  rigid transformation for the pose curve) are embedded as `List ℚ`;
  `double` arithmetic is embedded as exact rational arithmetic.  No claim
  inspects pose-specific group structure, so one value type serves both
  curve variants.
* glog `CHECK` failures end the call; they are embedded as error results
  (`CurveErr`) paired with the state held at the point of failure.
-/

/-- Curve time stamps: a signed integer (e.g. nanoseconds). -/
abbrev Time := Int

/-- Stable coefficient identifier handed to the optimization back-end. -/
abbrev Key := Nat

/-- Coefficient value: a fixed-dimension numeric vector (`Eigen::VectorXd`),
with `double` entries embedded as rationals. -/
abbrev Val := List ℚ

/-- Error taxonomy of the library (spec §7). -/
inductive CurveErr where
  | NotFound
  | PreconditionViolation
  | Unimplemented
deriving DecidableEq, Repr

/-- One stored record of the manager: key, coefficient and time
(`KeyCoefficientTime` in the source). -/
structure KeyCoefficientTime where
  key : Key
  coefficient : Val
  time : Time
deriving DecidableEq, Repr

/-- Modelled from the spec: `LocalSupport2CoefficientManager` /
`CoefficientManager` (implementation not in the excerpt).  The
time-ordered map `TimeToKeyCoefficientMap` is embedded as a list of
records in ascending time order, together with the next fresh key. -/
structure LocalSupport2CoefficientManager where
  entries : List KeyCoefficientTime
  nextKey : Key
deriving DecidableEq, Repr

/-- The strict-time-order invariant of the manager's map (spec §4.1):
times are strictly increasing along the stored order. -/
def EntriesSorted (es : List KeyCoefficientTime) : Prop :=
  List.Pairwise (fun p q => p.time < q.time) es

instance (es : List KeyCoefficientTime) : Decidable (EntriesSorted es) :=
  List.instDecidablePairwise es

/-- Boolean test that a time sequence is strictly increasing, used by the
batch-insert validation. -/
def strictlyIncreasingTimes : List Time → Bool
  | [] => true
  | [_] => true
  | a :: b :: r => decide (a < b) && strictlyIncreasingTimes (b :: r)

/-- Modelled from the spec: `getFrontTime` / `getMinTime` — smallest time
present, or a sentinel (0) if the map is empty. -/
def LocalSupport2CoefficientManager.getMinTime
    (m : LocalSupport2CoefficientManager) : Time :=
  match m.entries.head? with
  | some e => e.time
  | none => 0

/-- Modelled from the spec: `getBackTime` / `getMaxTime` — largest time
present, or a sentinel (0) if the map is empty. -/
def LocalSupport2CoefficientManager.getMaxTime
    (m : LocalSupport2CoefficientManager) : Time :=
  match m.entries.getLast? with
  | some e => e.time
  | none => 0

/-- Insert one record into a time-ordered list, keeping the order (the
record's time is assumed distinct from all stored times). -/
def insertOne (es : List KeyCoefficientTime) (x : KeyCoefficientTime) :
    List KeyCoefficientTime :=
  match es with
  | [] => [x]
  | a :: rest => if x.time < a.time then x :: a :: rest else a :: insertOne rest x

/-- Insert a batch of `(time, value)` pairs one after the other, assigning
consecutive fresh keys starting at `k`. -/
def insertAll (es : List KeyCoefficientTime) (k : Key)
    (ps : List (Time × Val)) : List KeyCoefficientTime :=
  match ps with
  | [] => es
  | (t, v) :: rest => insertAll (insertOne es ⟨k, v, t⟩) (k + 1) rest

/-- Modelled from the spec: `insertCoefficients(times, values)` (§4.1) —
parallel sequences; fails with a precondition violation if the lengths
differ, the batch times are not strictly increasing, or a batch time is
already present; validate-then-apply, so on a violation the state is
returned unchanged.  On success each coefficient gets a fresh key,
assigned in input order. -/
def LocalSupport2CoefficientManager.insertCoefficients
    (m : LocalSupport2CoefficientManager)
    (times : List Time) (values : List Val) :
    Option CurveErr × LocalSupport2CoefficientManager :=
  if times.length ≠ values.length then
    (some .PreconditionViolation, m)
  else if strictlyIncreasingTimes times &&
          times.all (fun t => m.entries.all (fun e => e.time ≠ t)) then
    (none, ⟨insertAll m.entries m.nextKey (times.zip values),
            m.nextKey + times.length⟩)
  else
    (some .PreconditionViolation, m)

/-- Modelled from the spec: `addCoefficientAtEnd(time, value)` (§4.1) —
requires `time` greater than the current max time (or the map empty);
appends one record with a fresh key. -/
def LocalSupport2CoefficientManager.addCoefficientAtEnd
    (m : LocalSupport2CoefficientManager) (t : Time) (v : Val) :
    Option CurveErr × LocalSupport2CoefficientManager :=
  if m.entries.all (fun e => e.time < t) then
    (none, ⟨m.entries ++ [⟨m.nextKey, v, t⟩], m.nextKey + 1⟩)
  else
    (some .PreconditionViolation, m)

/-- Modelled from the spec: `modifyCoefficient(--coefficientEnd(), time,
value)` as used by the extend policy — replace the last record's time and
value in place, preserving its key; the new time must keep the map
strictly time-ordered (§4.1 invariant). -/
def LocalSupport2CoefficientManager.modifyLastCoefficient
    (m : LocalSupport2CoefficientManager) (t : Time) (v : Val) :
    Option CurveErr × LocalSupport2CoefficientManager :=
  match m.entries.getLast? with
  | none => (some .PreconditionViolation, m)
  | some e =>
    if m.entries.dropLast.all (fun x => x.time < t) then
      (none, ⟨m.entries.dropLast ++ [⟨e.key, v, t⟩], m.nextKey⟩)
    else
      (some .PreconditionViolation, m)

/-- Modelled from the spec: `clear()` — destroys all entries.  Keys are
never reused (§3), so the fresh-key counter is preserved. -/
def LocalSupport2CoefficientManager.clear
    (m : LocalSupport2CoefficientManager) : LocalSupport2CoefficientManager :=
  ⟨[], m.nextKey⟩

/-- Modelled from the spec: the core of `getCoefficientsAt` (§4.1) — on a
time-ordered list, find the two adjacent records bracketing `t`
(`first.time ≤ t ≤ second.time`).  When `t` coincides with a stored
timestamp that is not the last, the pair is that record and its
successor; when `t` equals the last stored time, the pair is the
second-to-last and last records (§4.3, and §8 requires
`evaluate(getMaxTime())` to succeed).  Returns `none` when `t` is out of
range or fewer than two records exist. -/
def findBracket (es : List KeyCoefficientTime) (t : Time) :
    Option (KeyCoefficientTime × KeyCoefficientTime) :=
  match es with
  | a :: b :: rest =>
    if t < a.time then none
    else if t < b.time then some (a, b)
    else
      match rest with
      | [] => if t = b.time then some (a, b) else none
      | _ :: _ => findBracket (b :: rest) t
  | _ => none

/-- Modelled from the spec: `getCoefficientsAt(time)` (§4.1) on the
manager. -/
def LocalSupport2CoefficientManager.getCoefficientsAt
    (m : LocalSupport2CoefficientManager) (t : Time) :
    Option (KeyCoefficientTime × KeyCoefficientTime) :=
  findBracket m.entries t

/-- Scalar multiple of a coefficient vector. -/
def vsmul (c : ℚ) (v : Val) : Val := v.map (fun x => c * x)

/-- Componentwise sum of two coefficient vectors. -/
def vaddv (v w : Val) : Val := List.zipWith (fun a b => a + b) v w

/-- Componentwise difference of two coefficient vectors. -/
def vsubv (v w : Val) : Val := List.zipWith (fun a b => a - b) v w

/-- `LinearInterpolationVectorSpaceCurve::evaluate(time)` (from the
source): get the bracketing pair, `dt = t1 - t0`, `t = t1 - time`,
`alpha = t/dt`, result `alpha*v0 + (1-alpha)*v1`; the `CHECK(success)`
on the lookup is embedded as a `NotFound` error. -/
def evaluateLin (m : LocalSupport2CoefficientManager) (time : Time) :
    Except CurveErr Val :=
  match m.getCoefficientsAt time with
  | none => .error .NotFound
  | some (a, b) =>
    let dt : Time := b.time - a.time
    let t : Time := b.time - time
    let alpha : ℚ := (t : ℚ) / (dt : ℚ)
    .ok (vaddv (vsmul alpha a.coefficient) (vsmul (1 - alpha) b.coefficient))

/-- `LinearInterpolationVectorSpaceCurve::fitCurve(times, values)` (from
the source): `CHECK_EQ` on the lengths; if `times` is nonempty, clear the
manager, `CHECK_EQ` each value's dimension against the first value's,
then batch-insert.  Each `CHECK` failure is embedded as a precondition
violation paired with the state held at that point (for the dimension
check and the insert, the already-cleared manager). -/
def fitCurveLin (m : LocalSupport2CoefficientManager)
    (times : List Time) (values : List Val) :
    Option CurveErr × LocalSupport2CoefficientManager :=
  if times.length ≠ values.length then
    (some .PreconditionViolation, m)
  else if 0 < times.length then
    let m1 := m.clear
    let vsize : Nat :=
      match values with
      | [] => 0
      | v :: _ => v.length
    if values.all (fun v => v.length = vsize) then
      m1.insertCoefficients times values
    else
      (some .PreconditionViolation, m1)
  else
    (none, m)

/-- `LinearInterpolationVectorSpaceCurve::extend` (from the source):
`CHECK(false) << "Not implemented"`. -/
def extendLin (m : LocalSupport2CoefficientManager)
    (_times : List Time) (_values : List Val) :
    Option CurveErr × LocalSupport2CoefficientManager :=
  (some .Unimplemented, m)

/-- `LinearInterpolationVectorSpaceCurve::evaluateDerivative` (from the
source): `CHECK(false) << "Not implemented"`. -/
def evaluateDerivativeLin (_m : LocalSupport2CoefficientManager)
    (_time : Time) (_derivativeOrder : Nat) : Except CurveErr Val :=
  .error .Unimplemented

/-- `LinearInterpolationVectorSpaceCurve::getEvaluator` (from the
source): `CHECK(false) << "Not implemented"`. -/
def getEvaluatorLin (_m : LocalSupport2CoefficientManager)
    (_time : Time) : Except CurveErr Unit :=
  .error .Unimplemented

/-- `LinearInterpolationVectorSpaceCurve::setTimeRange` (from the
source): `CHECK(false) << "Not implemented"`. -/
def setTimeRangeLin (m : LocalSupport2CoefficientManager)
    (_minTime _maxTime : Time) :
    Option CurveErr × LocalSupport2CoefficientManager :=
  (some .Unimplemented, m)

/-- State of the streaming sampling policy (`SamplingPolicy`): counter of
measurements since the last accepted extend, the minimum number of
measurements per retained coefficient, and the (unenforced) minimum
sampling period. -/
structure SamplingPolicy where
  measurementsSinceLastExtend_ : Nat
  minimumMeasurements_ : Nat
  minSamplingPeriod_ : Time
deriving DecidableEq, Repr

/-- `SamplingPolicy::extend<DiscreteSE3Curve, SE3>` (from the source):
multi-sample batches bypass decimation and batch-insert; an empty or
size-1 curve batch-inserts unconditionally (bootstrap); with
`minimumMeasurements_ == 1` a single sample is always appended;
otherwise the counter is incremented, the first measurement of a cycle
appends and every later one overwrites the last coefficient in place,
and the counter resets to 0 on reaching `minimumMeasurements_`.  `CHECK`
failures inside the manager calls end the call before the reset line, as
in the source. -/
def SamplingPolicy.extendDiscreteSE3 (p : SamplingPolicy)
    (mgr : LocalSupport2CoefficientManager)
    (times : List Time) (values : List Val) :
    Option CurveErr × SamplingPolicy × LocalSupport2CoefficientManager :=
  if times.length ≠ 1 then
    let r := mgr.insertCoefficients times values
    (r.1, p, r.2)
  else if mgr.entries.length = 0 ∨ mgr.entries.length = 1 then
    let r := mgr.insertCoefficients times values
    (r.1, p, r.2)
  else
    let t0 := times.headD 0
    let v0 := values.headD []
    if p.minimumMeasurements_ = 1 then
      let r := mgr.addCoefficientAtEnd t0 v0
      (r.1, p, r.2)
    else
      let c := p.measurementsSinceLastExtend_ + 1
      let r :=
        if c = 1 then mgr.addCoefficientAtEnd t0 v0
        else mgr.modifyLastCoefficient t0 v0
      match r with
      | (none, mgr') =>
        (none,
         { p with measurementsSinceLastExtend_ :=
             if c = p.minimumMeasurements_ then 0 else c },
         mgr')
      | (some e, mgr') =>
        (some e, { p with measurementsSinceLastExtend_ := c }, mgr')

/-- Modelled from the spec: `DiscreteSE3Curve::evaluateDerivative(time,
order)` (only declared in the excerpt; behaviour from the source's doc
comment and §4.3).  Fails when the curve has fewer than two
coefficients; for `order == 1` the result is the discrete slope of the
two adjacent coefficients selected by the boundary rule (realized by
`findBracket`); for `order > 1` the result is identically zero; out of
bound times fail.  The tangent-space slope is embedded as the
componentwise difference quotient on the stand-in value type. -/
def evaluateDerivativeDiscrete (m : LocalSupport2CoefficientManager)
    (time : Time) (derivativeOrder : Nat) : Except CurveErr Val :=
  if m.entries.length < 2 then .error .NotFound
  else if derivativeOrder = 1 then
    match findBracket m.entries time with
    | none => .error .NotFound
    | some (a, b) =>
      .ok (vsmul (1 / ((b.time - a.time : Time) : ℚ))
            (vsubv b.coefficient a.coefficient))
  else if 2 ≤ derivativeOrder then
    match m.entries with
    | e :: _ => .ok (e.coefficient.map (fun _ => (0 : ℚ)))
    | [] => .error .NotFound
  else .error .NotFound

/-! ### Lemmas about the bracketing lookup -/

theorem findBracket_nil (t : Time) : findBracket [] t = none := rfl

theorem findBracket_single (x : KeyCoefficientTime) (t : Time) :
    findBracket [x] t = none := rfl

theorem findBracket_cons2_lt (x y : KeyCoefficientTime)
    (rest : List KeyCoefficientTime) (t : Time) (h : t < x.time) :
    findBracket (x :: y :: rest) t = none := by
  simp only [findBracket]
  simp [h]

theorem findBracket_cons2_here (x y : KeyCoefficientTime)
    (rest : List KeyCoefficientTime) (t : Time)
    (h1 : ¬ t < x.time) (h2 : t < y.time) :
    findBracket (x :: y :: rest) t = some (x, y) := by
  simp only [findBracket]
  simp [h1, h2]

theorem findBracket_pair (x y : KeyCoefficientTime) (t : Time)
    (h1 : ¬ t < x.time) (h2 : ¬ t < y.time) :
    findBracket [x, y] t = if t = y.time then some (x, y) else none := by
  simp only [findBracket]
  simp [h1, h2]

theorem findBracket_cons_ge (x y : KeyCoefficientTime)
    (rest : List KeyCoefficientTime) (t : Time)
    (h1 : ¬ t < x.time) (h2 : ¬ t < y.time) (hne : rest ≠ []) :
    findBracket (x :: y :: rest) t = findBracket (y :: rest) t := by
  match rest, hne with
  | z :: rest', _ =>
    simp only [findBracket]
    simp [h1, h2]

/-- On a strictly time-ordered list, a successful bracketing lookup
returns a pair with `first.time ≤ t ≤ second.time` and
`first.time < second.time` (adjacent distinct records). -/
theorem findBracket_bounds : ∀ (es : List KeyCoefficientTime) (t : Time)
    (a b : KeyCoefficientTime),
    EntriesSorted es → findBracket es t = some (a, b) →
    a.time ≤ t ∧ t ≤ b.time ∧ a.time < b.time
  | [], _, _, _, _, h => by simp [findBracket] at h
  | [_], _, _, _, _, h => by simp [findBracket] at h
  | x :: y :: rest, t, a, b, hs, h => by
    have hxy : x.time < y.time := (List.pairwise_cons.mp hs).1 y (by simp)
    by_cases h1 : t < x.time
    · rw [findBracket_cons2_lt x y rest t h1] at h
      exact absurd h (by simp)
    · by_cases h2 : t < y.time
      · rw [findBracket_cons2_here x y rest t h1 h2] at h
        simp only [Option.some.injEq, Prod.mk.injEq] at h
        obtain ⟨rfl, rfl⟩ := h
        exact ⟨not_lt.mp h1, le_of_lt h2, hxy⟩
      · cases rest with
        | nil =>
          rw [findBracket_pair x y t h1 h2] at h
          by_cases h3 : t = y.time
          · simp only [h3, if_pos rfl, Option.some.injEq, Prod.mk.injEq] at h
            obtain ⟨rfl, rfl⟩ := h
            exact ⟨not_lt.mp h1, le_of_eq h3, hxy⟩
          · simp [h3] at h
        | cons z rest' =>
          rw [findBracket_cons_ge x y (z :: rest') t h1 h2 (by simp)] at h
          exact findBracket_bounds (y :: z :: rest') t a b
            (List.pairwise_cons.mp hs).2 h

/-- Selection rule, interior and exact-non-last cases: if `a` and `b` are
adjacent records and `a.time ≤ t < b.time`, the lookup selects `(a, b)`. -/
theorem findBracket_of_middle : ∀ (l : List KeyCoefficientTime)
    (a b : KeyCoefficientTime) (r : List KeyCoefficientTime) (t : Time),
    EntriesSorted (l ++ a :: b :: r) → a.time ≤ t → t < b.time →
    findBracket (l ++ a :: b :: r) t = some (a, b)
  | [], a, b, r, t, _, h1, h2 => by
    simpa using findBracket_cons2_here a b r t (not_lt.mpr h1) h2
  | x :: l', a, b, r, t, hs, h1, h2 => by
    have hmem : ∀ e ∈ l' ++ a :: b :: r, x.time < e.time :=
      (List.pairwise_cons.mp hs).1
    have hs' : EntriesSorted (l' ++ a :: b :: r) := (List.pairwise_cons.mp hs).2
    have ih := findBracket_of_middle l' a b r t hs' h1 h2
    have hx : ¬ t < x.time :=
      not_lt.mpr (le_of_lt (lt_of_lt_of_le (hmem a (by simp)) h1))
    cases l' with
    | nil =>
      rw [List.nil_append] at ih
      rw [List.cons_append, List.nil_append,
        findBracket_cons_ge x a (b :: r) t hx (not_lt.mpr h1) (by simp)]
      exact ih
    | cons y l'' =>
      have hy : ¬ t < y.time := by
        have hya : y.time < a.time := by
          have := List.pairwise_cons.mp hs'
          exact this.1 a (by simp)
        exact not_lt.mpr (le_of_lt (lt_of_lt_of_le hya h1))
      rw [List.cons_append, List.cons_append,
        findBracket_cons_ge x y (l'' ++ a :: b :: r) t hx hy (by simp)]
      rw [List.cons_append] at ih
      exact ih

/-- Selection rule, exact-last case: querying exactly at the last stored
time selects the second-to-last and last records. -/
theorem findBracket_of_last : ∀ (l : List KeyCoefficientTime)
    (a b : KeyCoefficientTime),
    EntriesSorted (l ++ [a, b]) →
    findBracket (l ++ [a, b]) b.time = some (a, b)
  | [], a, b, hs => by
    rw [List.nil_append] at hs
    have hab : a.time < b.time := (List.pairwise_cons.mp hs).1 b (by simp)
    rw [List.nil_append,
      findBracket_pair a b b.time (not_lt.mpr (le_of_lt hab)) (lt_irrefl _)]
    simp
  | x :: l', a, b, hs => by
    have hmem : ∀ e ∈ l' ++ [a, b], x.time < e.time := (List.pairwise_cons.mp hs).1
    have hs' : EntriesSorted (l' ++ [a, b]) := (List.pairwise_cons.mp hs).2
    have ih := findBracket_of_last l' a b hs'
    have hx : ¬ b.time < x.time := not_lt.mpr (le_of_lt (hmem b (by simp)))
    cases l' with
    | nil =>
      rw [List.nil_append] at ih
      have hab : ¬ b.time < a.time := by
        have hs'' : EntriesSorted [a, b] := by rw [List.nil_append] at hs'; exact hs'
        have hab' : a.time < b.time := (List.pairwise_cons.mp hs'').1 b (by simp)
        exact not_lt.mpr (le_of_lt hab')
      rw [List.cons_append, List.nil_append,
        findBracket_cons_ge x a [b] b.time hx hab (by simp)]
      exact ih
    | cons y l'' =>
      have hy : ¬ b.time < y.time := by
        have : y.time < b.time := (List.pairwise_cons.mp hs').1 b (by simp)
        exact not_lt.mpr (le_of_lt this)
      rw [List.cons_append, List.cons_append,
        findBracket_cons_ge x y (l'' ++ [a, b]) b.time hx hy (by simp)]
      rw [List.cons_append] at ih
      exact ih

/-! ### Lemmas about batch insertion -/

/-- The canonical records built from `(time, value)` pairs with
consecutive fresh keys starting at `k`. -/
def assignKeys (k : Key) : List (Time × Val) → List KeyCoefficientTime
  | [] => []
  | (t, v) :: rest => ⟨k, v, t⟩ :: assignKeys (k + 1) rest

theorem assignKeys_timesValues (k : Key) (ps : List (Time × Val)) :
    (assignKeys k ps).map (fun e => (e.time, e.coefficient)) = ps := by
  induction ps generalizing k with
  | nil => rfl
  | cons p rest ih =>
    obtain ⟨t, v⟩ := p
    simp [assignKeys, ih]

theorem assignKeys_keys (k : Key) (ps : List (Time × Val)) :
    (assignKeys k ps).map (fun e => e.key) = List.range' k ps.length := by
  induction ps generalizing k with
  | nil => rfl
  | cons p rest ih =>
    obtain ⟨t, v⟩ := p
    simp [assignKeys, ih, List.range']

theorem assignKeys_length (k : Key) (ps : List (Time × Val)) :
    (assignKeys k ps).length = ps.length := by
  induction ps generalizing k with
  | nil => rfl
  | cons p rest ih =>
    obtain ⟨t, v⟩ := p
    simp [assignKeys, ih]

theorem insertOne_append (es : List KeyCoefficientTime)
    (x : KeyCoefficientTime) (h : ∀ e ∈ es, e.time < x.time) :
    insertOne es x = es ++ [x] := by
  induction es with
  | nil => rfl
  | cons a rest ih =>
    have ha : a.time < x.time := h a (by simp)
    simp only [insertOne, if_neg (not_lt.mpr (le_of_lt ha))]
    rw [ih (fun e he => h e (by simp [he]))]
    simp

theorem strictlyIncreasingTimes_tail (t : Time) (ts : List Time)
    (h : strictlyIncreasingTimes (t :: ts) = true) :
    strictlyIncreasingTimes ts = true := by
  cases ts with
  | nil => rfl
  | cons u ts' =>
    simp only [strictlyIncreasingTimes, Bool.and_eq_true] at h
    exact h.2

theorem strictlyIncreasingTimes_head_lt (t : Time) (ts : List Time)
    (h : strictlyIncreasingTimes (t :: ts) = true) :
    ∀ u ∈ ts, t < u := by
  induction ts generalizing t with
  | nil => intro u hu; simp at hu
  | cons u ts' ih =>
    simp only [strictlyIncreasingTimes, Bool.and_eq_true, decide_eq_true_eq] at h
    intro w hw
    rcases List.mem_cons.mp hw with rfl | hw'
    · exact h.1
    · exact lt_trans h.1 (ih u h.2 w hw')

theorem insertAll_append (ps : List (Time × Val)) :
    ∀ (es : List KeyCoefficientTime) (k : Key),
    (∀ e ∈ es, ∀ p ∈ ps, e.time < p.1) →
    strictlyIncreasingTimes (ps.map Prod.fst) = true →
    insertAll es k ps = es ++ assignKeys k ps := by
  induction ps with
  | nil => intro es k _ _; simp [insertAll, assignKeys]
  | cons p rest ih =>
    intro es k hlt hinc
    obtain ⟨t, v⟩ := p
    have hins : insertOne es ⟨k, v, t⟩ = es ++ [⟨k, v, t⟩] :=
      insertOne_append es ⟨k, v, t⟩ (fun e he => hlt e he (t, v) (by simp))
    have hlt' : ∀ e ∈ es ++ [(⟨k, v, t⟩ : KeyCoefficientTime)],
        ∀ p ∈ rest, e.time < p.1 := by
      intro e he q hq
      rcases List.mem_append.mp he with he' | he'
      · exact hlt e he' q (by simp [hq])
      · have : e = ⟨k, v, t⟩ := by simpa using he'
        subst this
        simp only [List.map_cons] at hinc
        exact strictlyIncreasingTimes_head_lt t (rest.map Prod.fst) hinc q.1
          (List.mem_map_of_mem Prod.fst hq)
    have hinc' : strictlyIncreasingTimes (rest.map Prod.fst) = true := by
      simp only [List.map_cons] at hinc
      exact strictlyIncreasingTimes_tail t (rest.map Prod.fst) hinc
    simp only [insertAll, hins]
    rw [ih _ (k + 1) hlt' hinc']
    simp [assignKeys]

/-- Batch insertion into an empty manager with strictly increasing times
succeeds and yields exactly the canonical records with fresh keys. -/
theorem insertCoefficients_empty (nk : Key) (ts : List Time) (vs : List Val)
    (hlen : ts.length = vs.length)
    (hinc : strictlyIncreasingTimes ts = true) :
    LocalSupport2CoefficientManager.insertCoefficients ⟨[], nk⟩ ts vs =
      (none, ⟨assignKeys nk (ts.zip vs), nk + ts.length⟩) := by
  simp only [LocalSupport2CoefficientManager.insertCoefficients]
  rw [if_neg (by simp [hlen])]
  rw [if_pos ?_]
  · rw [insertAll_append (ts.zip vs) [] nk (by simp) ?_]
    · simp
    · rw [List.map_fst_zip ts vs (le_of_eq hlen)]
      exact hinc
  · simp only [Bool.and_eq_true]
    refine ⟨hinc, ?_⟩
    simp [List.all_eq_true]

/-- `fitCurve` on a nonempty, valid input: clears the manager and
batch-inserts, yielding exactly the canonical records with fresh keys. -/
theorem fitCurveLin_nonempty (m : LocalSupport2CoefficientManager)
    (ts : List Time) (vs : List Val) (d : Nat)
    (hlen : ts.length = vs.length) (hne : ts ≠ [])
    (hinc : strictlyIncreasingTimes ts = true)
    (hdim : ∀ v ∈ vs, v.length = d) :
    fitCurveLin m ts vs =
      (none, ⟨assignKeys m.nextKey (ts.zip vs), m.nextKey + ts.length⟩) := by
  have hpos : 0 < ts.length := List.length_pos.mpr hne
  simp only [fitCurveLin, LocalSupport2CoefficientManager.clear]
  rw [if_neg (by simp [hlen]), if_pos hpos]
  cases vs with
  | nil =>
    exfalso
    rw [hlen] at hpos
    simp at hpos
  | cons v0 vs' =>
    rw [if_pos ?_]
    · exact insertCoefficients_empty m.nextKey ts (v0 :: vs') hlen hinc
    · simp only [List.all_eq_true, decide_eq_true_eq]
      intro v hv
      rw [hdim v hv, hdim v0 (by simp)]

/-- Helper: `insertCoefficients` is validate-then-apply — on any
violation the manager is returned unchanged. -/
theorem insertCoefficients_error_state (m : LocalSupport2CoefficientManager)
    (ts : List Time) (vs : List Val)
    (h : (m.insertCoefficients ts vs).1 ≠ none) :
    (m.insertCoefficients ts vs).2 = m := by
  simp only [LocalSupport2CoefficientManager.insertCoefficients] at h ⊢
  split_ifs at h ⊢ <;> simp_all

/-! ### Claim theorems -/

/-- C6 counterexample: `fitCurve` with empty sequences does **not**
discard the prior state — the source only clears when `times.size() > 0`,
so a curve fitted with empty inputs keeps its previous entries. -/
theorem fitCurve_empty_input_counterexample :
    fitCurveLin ⟨[⟨0, [1], 0⟩], 1⟩ [] [] = (none, ⟨[⟨0, [1], 0⟩], 1⟩) ∧
    (⟨[⟨0, [1], 0⟩], 1⟩ : LocalSupport2CoefficientManager).entries ≠ [] := by
  exact ⟨rfl, by decide⟩

/-- C6 (amended): for nonempty valid input, `fitCurve` discards the
entire prior state — afterwards the manager holds exactly the entries
built from the given times and values, with fresh consecutive keys, and
nothing from before the call.  (When the given sequences are empty,
`fitCurve` is a no-op and the prior state is retained.) -/
theorem fitCurve_nonempty_replaces_state (m : LocalSupport2CoefficientManager)
    (ts : List Time) (vs : List Val) (d : Nat)
    (hlen : ts.length = vs.length) (hne : ts ≠ [])
    (hinc : strictlyIncreasingTimes ts = true)
    (hdim : ∀ v ∈ vs, v.length = d) :
    (fitCurveLin m ts vs).1 = none ∧
    (fitCurveLin m ts vs).2.entries.map (fun e => (e.time, e.coefficient)) =
      ts.zip vs ∧
    (fitCurveLin m ts vs).2.entries.map (fun e => e.key) =
      List.range' m.nextKey ts.length ∧
    (fitCurveLin m ts vs).2.nextKey = m.nextKey + ts.length := by
  rw [fitCurveLin_nonempty m ts vs d hlen hne hinc hdim]
  refine ⟨rfl, assignKeys_timesValues _ _, ?_, rfl⟩
  rw [assignKeys_keys]
  congr 1
  rw [List.length_zip, hlen, Nat.min_self]

/-- Witness for `fitCurve_nonempty_replaces_state` at a concrete input
with nonempty prior state. -/
theorem fitCurve_nonempty_replaces_state_witness :
    (fitCurveLin ⟨[⟨0, [7], -5⟩], 3⟩ [0, 10] [[0], [10]]).1 = none ∧
    (fitCurveLin ⟨[⟨0, [7], -5⟩], 3⟩ [0, 10] [[0], [10]]).2.entries.map
      (fun e => (e.time, e.coefficient)) = [0, 10].zip [[0], [10]] ∧
    (fitCurveLin ⟨[⟨0, [7], -5⟩], 3⟩ [0, 10] [[0], [10]]).2.entries.map
      (fun e => e.key) = List.range' 3 2 ∧
    (fitCurveLin ⟨[⟨0, [7], -5⟩], 3⟩ [0, 10] [[0], [10]]).2.nextKey = 3 + 2 :=
  fitCurve_nonempty_replaces_state ⟨[⟨0, [7], -5⟩], 3⟩ [0, 10] [[0], [10]] 1
    (by decide) (by decide) (by decide) (by decide)

/-- C7: `fitCurve(times, values)` twice yields the same manager state as
once, up to keys: both calls succeed, the stored times and values
coincide, and the second call reassigns fresh keys (the fresh-key
counter advances by the batch size). -/
theorem fitCurve_idempotent_up_to_keys (m : LocalSupport2CoefficientManager)
    (ts : List Time) (vs : List Val) (d : Nat)
    (hlen : ts.length = vs.length)
    (hinc : strictlyIncreasingTimes ts = true)
    (hdim : ∀ v ∈ vs, v.length = d) :
    (fitCurveLin m ts vs).1 = none ∧
    (fitCurveLin (fitCurveLin m ts vs).2 ts vs).1 = none ∧
    (fitCurveLin (fitCurveLin m ts vs).2 ts vs).2.entries.map
        (fun e => (e.time, e.coefficient)) =
      (fitCurveLin m ts vs).2.entries.map (fun e => (e.time, e.coefficient)) ∧
    (fitCurveLin (fitCurveLin m ts vs).2 ts vs).2.nextKey =
      (fitCurveLin m ts vs).2.nextKey + ts.length := by
  by_cases hne : ts = []
  · subst hne
    have hvs : vs = [] := by
      cases vs with
      | nil => rfl
      | cons v vs' => simp at hlen
    subst hvs
    simp [fitCurveLin]
  · rw [fitCurveLin_nonempty m ts vs d hlen hne hinc hdim]
    rw [fitCurveLin_nonempty _ ts vs d hlen hne hinc hdim]
    refine ⟨rfl, rfl, ?_, rfl⟩
    rw [assignKeys_timesValues, assignKeys_timesValues]

/-- Witness for `fitCurve_idempotent_up_to_keys` at a concrete input. -/
theorem fitCurve_idempotent_up_to_keys_witness :
    (fitCurveLin ⟨[], 0⟩ [1, 4] [[2], [8]]).1 = none ∧
    (fitCurveLin (fitCurveLin ⟨[], 0⟩ [1, 4] [[2], [8]]).2 [1, 4] [[2], [8]]).1 = none ∧
    (fitCurveLin (fitCurveLin ⟨[], 0⟩ [1, 4] [[2], [8]]).2 [1, 4] [[2], [8]]).2.entries.map
        (fun e => (e.time, e.coefficient)) =
      (fitCurveLin ⟨[], 0⟩ [1, 4] [[2], [8]]).2.entries.map
        (fun e => (e.time, e.coefficient)) ∧
    (fitCurveLin (fitCurveLin ⟨[], 0⟩ [1, 4] [[2], [8]]).2 [1, 4] [[2], [8]]).2.nextKey =
      (fitCurveLin ⟨[], 0⟩ [1, 4] [[2], [8]]).2.nextKey + 2 :=
  fitCurve_idempotent_up_to_keys ⟨[], 0⟩ [1, 4] [[2], [8]] 1
    (by decide) (by decide) (by decide)

/-- C3 counterexample: a `fitCurve` call whose batch times are not
strictly increasing fails, but the stored state is **not** what it was
before the call — `fitCurve` clears the manager before validating the
batch, so the prior entry is lost and the curve is left empty. -/
theorem fitCurve_atomicity_counterexample :
    fitCurveLin ⟨[⟨0, [1], 0⟩], 1⟩ [5, 3] [[1], [2]] =
      (some .PreconditionViolation, ⟨[], 1⟩) ∧
    (⟨[], 1⟩ : LocalSupport2CoefficientManager) ≠ ⟨[⟨0, [1], 0⟩], 1⟩ := by
  exact ⟨by decide, by decide⟩

/-- C3 (amended): a precondition violation is never *partially* applied —
no proper subset of the batch is inserted.  `insertCoefficients` itself
is validate-then-apply and leaves its input state unchanged on any
violation; a mismatched-lengths violation leaves `fitCurve`'s state fully
unchanged; but on a time-ordering or duplicate-time violation `fitCurve`
has already cleared the prior state, so the curve ends empty rather than
restored. -/
theorem batch_violation_no_partial_application :
    (∀ (m : LocalSupport2CoefficientManager) (ts : List Time) (vs : List Val),
       (m.insertCoefficients ts vs).1 ≠ none → (m.insertCoefficients ts vs).2 = m) ∧
    (∀ (m : LocalSupport2CoefficientManager) (ts : List Time) (vs : List Val),
       ts.length ≠ vs.length →
       fitCurveLin m ts vs = (some .PreconditionViolation, m)) ∧
    (∀ (m : LocalSupport2CoefficientManager) (ts : List Time) (vs : List Val),
       (fitCurveLin m ts vs).1 ≠ none →
       (fitCurveLin m ts vs).2.entries = m.entries ∨
       (fitCurveLin m ts vs).2.entries = []) := by
  refine ⟨insertCoefficients_error_state, ?_, ?_⟩
  · intro m ts vs h
    simp [fitCurveLin, h]
  · intro m ts vs h
    simp only [fitCurveLin, LocalSupport2CoefficientManager.clear] at h ⊢
    split_ifs at h ⊢ with h1 h2 h3
    · exact Or.inl rfl
    · right
      have := insertCoefficients_error_state ⟨[], m.nextKey⟩ ts vs h
      rw [this]
    · exact Or.inr rfl
    · exact Or.inl rfl

/-- Witness for `batch_violation_no_partial_application` at concrete
inputs. -/
theorem batch_violation_no_partial_application_witness :
    ((⟨[⟨0, [1], 0⟩], 1⟩ : LocalSupport2CoefficientManager).insertCoefficients
        [3, 2] [[4], [5]]).2 = ⟨[⟨0, [1], 0⟩], 1⟩ ∧
    fitCurveLin ⟨[⟨0, [1], 0⟩], 1⟩ [3] [] = (some .PreconditionViolation, ⟨[⟨0, [1], 0⟩], 1⟩) ∧
    ((fitCurveLin ⟨[⟨0, [1], 0⟩], 1⟩ [3, 2] [[4], [5]]).2.entries = [⟨0, [1], 0⟩] ∨
     (fitCurveLin ⟨[⟨0, [1], 0⟩], 1⟩ [3, 2] [[4], [5]]).2.entries = []) :=
  ⟨batch_violation_no_partial_application.1 ⟨[⟨0, [1], 0⟩], 1⟩ [3, 2] [[4], [5]] (by decide),
   batch_violation_no_partial_application.2.1 ⟨[⟨0, [1], 0⟩], 1⟩ [3] [] (by decide),
   batch_violation_no_partial_application.2.2 ⟨[⟨0, [1], 0⟩], 1⟩ [3, 2] [[4], [5]] (by decide)⟩

/-- C2: whenever the manager returns a bracketing pair `(t0,v0)`,
`(t1,v1)`, it satisfies `t0 ≤ time ≤ t1` and `t0 < t1`, and `evaluate`
returns `alpha*v0 + (1-alpha)*v1` with `alpha = (t1-time)/(t1-t0)`; in
particular on the curve fitted to coefficients `(0, 0.0)` and
`(10, 10.0)`, `evaluate(5) = 5.0`, `evaluate(0) = 0.0`,
`evaluate(10) = 10.0`. -/
theorem evaluateLin_interpolation_spec :
    (∀ (m : LocalSupport2CoefficientManager) (t : Time)
       (a b : KeyCoefficientTime),
       EntriesSorted m.entries → m.getCoefficientsAt t = some (a, b) →
       a.time ≤ t ∧ t ≤ b.time ∧ a.time < b.time ∧
       evaluateLin m t = .ok (vaddv
         (vsmul (((b.time - t : Time) : ℚ) / ((b.time - a.time : Time) : ℚ))
           a.coefficient)
         (vsmul (1 - ((b.time - t : Time) : ℚ) / ((b.time - a.time : Time) : ℚ))
           b.coefficient))) ∧
    evaluateLin (fitCurveLin ⟨[], 0⟩ [0, 10] [[0], [10]]).2 5 = .ok [5] ∧
    evaluateLin (fitCurveLin ⟨[], 0⟩ [0, 10] [[0], [10]]).2 0 = .ok [0] ∧
    evaluateLin (fitCurveLin ⟨[], 0⟩ [0, 10] [[0], [10]]).2 10 = .ok [10] := by
  have hm : (fitCurveLin ⟨[], 0⟩ [0, 10] [[0], [10]]).2 =
      ⟨[⟨0, [0], 0⟩, ⟨1, [10], 10⟩], 2⟩ := by decide
  refine ⟨?_, ?_, ?_, ?_⟩
  · intro m t a b hs hab
    obtain ⟨h1, h2, h3⟩ := findBracket_bounds m.entries t a b hs hab
    refine ⟨h1, h2, h3, ?_⟩
    simp only [evaluateLin, LocalSupport2CoefficientManager.getCoefficientsAt] at hab ⊢
    rw [hab]
  · rw [hm]
    simp [evaluateLin, LocalSupport2CoefficientManager.getCoefficientsAt,
      findBracket, vaddv, vsmul]
    norm_num
  · rw [hm]
    simp [evaluateLin, LocalSupport2CoefficientManager.getCoefficientsAt,
      findBracket, vaddv, vsmul]
  · rw [hm]
    simp [evaluateLin, LocalSupport2CoefficientManager.getCoefficientsAt,
      findBracket, vaddv, vsmul]

/-- Witness for the general part of `evaluateLin_interpolation_spec` at a
concrete curve and query time. -/
theorem evaluateLin_interpolation_spec_witness :
    (⟨0, [0], 0⟩ : KeyCoefficientTime).time ≤ (5 : Time) ∧
    (5 : Time) ≤ (⟨1, [10], 10⟩ : KeyCoefficientTime).time ∧
    (⟨0, [0], 0⟩ : KeyCoefficientTime).time <
      (⟨1, [10], 10⟩ : KeyCoefficientTime).time ∧
    evaluateLin ⟨[⟨0, [0], 0⟩, ⟨1, [10], 10⟩], 2⟩ 5 = .ok (vaddv
      (vsmul ((((⟨1, [10], 10⟩ : KeyCoefficientTime).time - (5 : Time) : Time) : ℚ) /
          (((⟨1, [10], 10⟩ : KeyCoefficientTime).time -
            (⟨0, [0], 0⟩ : KeyCoefficientTime).time : Time) : ℚ))
        (⟨0, [0], 0⟩ : KeyCoefficientTime).coefficient)
      (vsmul (1 - (((⟨1, [10], 10⟩ : KeyCoefficientTime).time - (5 : Time) : Time) : ℚ) /
          (((⟨1, [10], 10⟩ : KeyCoefficientTime).time -
            (⟨0, [0], 0⟩ : KeyCoefficientTime).time : Time) : ℚ))
        (⟨1, [10], 10⟩ : KeyCoefficientTime).coefficient)) :=
  evaluateLin_interpolation_spec.1 ⟨[⟨0, [0], 0⟩, ⟨1, [10], 10⟩], 2⟩ 5
    ⟨0, [0], 0⟩ ⟨1, [10], 10⟩ (by decide) (by decide)

/-- C4 counterexample: on a curve holding exactly one coefficient (value
`[3]` at time 0), `evaluate` at that coefficient's exact time fails with
`NotFound` instead of returning the stored value — the source's
`evaluate` always interpolates a bracketing pair, and the lookup fails
with fewer than two records. -/
theorem evaluate_singleton_counterexample :
    evaluateLin ⟨[⟨0, [3], 0⟩], 1⟩ 0 = .error .NotFound ∧
    (Except.error CurveErr.NotFound : Except CurveErr Val) ≠ .ok [3] :=
  ⟨rfl, fun h => Except.noConfusion h⟩

/-- C4 (amended): `evaluate` never divides by zero — whenever the
bracketing lookup succeeds the pair satisfies `t0 < t1`, so the
interpolation denominator `t1 - t0` is nonzero; but on a curve holding
exactly one coefficient, `evaluate` (at any time, including the stored
one) fails with `NotFound` rather than returning the stored value
directly. -/
theorem evaluate_no_division_by_zero :
    (∀ (m : LocalSupport2CoefficientManager) (t : Time)
       (a b : KeyCoefficientTime),
       EntriesSorted m.entries → m.getCoefficientsAt t = some (a, b) →
       a.time < b.time ∧ ((b.time - a.time : Time) : ℚ) ≠ 0) ∧
    (∀ (m : LocalSupport2CoefficientManager) (t : Time),
       m.entries.length = 1 → evaluateLin m t = .error .NotFound) := by
  constructor
  · intro m t a b hs hab
    have h3 := (findBracket_bounds m.entries t a b hs hab).2.2
    have hne : (b.time - a.time : Time) ≠ 0 := ne_of_gt (sub_pos.mpr h3)
    exact ⟨h3, by exact_mod_cast hne⟩
  · intro m t h1
    obtain ⟨e, he⟩ := List.length_eq_one.mp h1
    simp [evaluateLin, LocalSupport2CoefficientManager.getCoefficientsAt, he,
      findBracket]

/-- Witness for `evaluate_no_division_by_zero` at concrete curves. -/
theorem evaluate_no_division_by_zero_witness :
    ((⟨0, [0], 0⟩ : KeyCoefficientTime).time <
       (⟨1, [10], 10⟩ : KeyCoefficientTime).time ∧
     (((⟨1, [10], 10⟩ : KeyCoefficientTime).time -
        (⟨0, [0], 0⟩ : KeyCoefficientTime).time : Time) : ℚ) ≠ 0) ∧
    evaluateLin ⟨[⟨0, [3], 0⟩], 1⟩ 2 = .error .NotFound :=
  ⟨evaluate_no_division_by_zero.1 ⟨[⟨0, [0], 0⟩, ⟨1, [10], 10⟩], 2⟩ 5
      ⟨0, [0], 0⟩ ⟨1, [10], 10⟩ (by decide) (by decide),
   evaluate_no_division_by_zero.2 ⟨[⟨0, [3], 0⟩], 1⟩ 2 (by decide)⟩

/-- C5: `evaluate(time)` on an empty curve, or at a time strictly before
`getMinTime()`, fails with `NotFound`.  (`evaluate` is a `const` method:
its embedding consumes the manager and returns only the result, so the
stored state is unchanged by construction.) -/
theorem evaluate_out_of_range_notFound (m : LocalSupport2CoefficientManager)
    (t : Time) (h : m.entries = [] ∨ t < m.getMinTime) :
    evaluateLin m t = .error .NotFound := by
  rcases h with h | h
  · simp [evaluateLin, LocalSupport2CoefficientManager.getCoefficientsAt, h,
      findBracket]
  · cases hm : m.entries with
    | nil =>
      simp [evaluateLin, LocalSupport2CoefficientManager.getCoefficientsAt, hm,
        findBracket]
    | cons e0 rest =>
      have ht : t < e0.time := by
        simpa [LocalSupport2CoefficientManager.getMinTime, hm] using h
      cases rest with
      | nil =>
        simp [evaluateLin, LocalSupport2CoefficientManager.getCoefficientsAt, hm,
          findBracket]
      | cons e1 rest' =>
        simp [evaluateLin, LocalSupport2CoefficientManager.getCoefficientsAt, hm,
          findBracket_cons2_lt e0 e1 rest' t ht]

/-- Witness for `evaluate_out_of_range_notFound`: an empty curve and a
query before the first coefficient. -/
theorem evaluate_out_of_range_notFound_witness :
    evaluateLin ⟨[], 0⟩ 7 = .error .NotFound ∧
    evaluateLin ⟨[⟨0, [1], 5⟩, ⟨1, [2], 9⟩], 2⟩ 3 = .error .NotFound :=
  ⟨evaluate_out_of_range_notFound ⟨[], 0⟩ 7 (Or.inl rfl),
   evaluate_out_of_range_notFound ⟨[⟨0, [1], 5⟩, ⟨1, [2], 9⟩], 2⟩ 3
     (Or.inr (by decide))⟩

/-- C10: on the linear-interpolation vector-space curve variant,
`extend`, `evaluateDerivative`, `getEvaluator` and `setTimeRange` fail
unconditionally ("Not implemented") for every input and every curve
state; `fitCurve` and `evaluate` are usable on this variant. -/
theorem linear_curve_unimplemented_ops :
    (∀ (m : LocalSupport2CoefficientManager) (ts : List Time) (vs : List Val),
       extendLin m ts vs = (some .Unimplemented, m)) ∧
    (∀ (m : LocalSupport2CoefficientManager) (t : Time) (k : Nat),
       evaluateDerivativeLin m t k = .error .Unimplemented) ∧
    (∀ (m : LocalSupport2CoefficientManager) (t : Time),
       getEvaluatorLin m t = .error .Unimplemented) ∧
    (∀ (m : LocalSupport2CoefficientManager) (t0 t1 : Time),
       setTimeRangeLin m t0 t1 = (some .Unimplemented, m)) ∧
    (fitCurveLin ⟨[], 0⟩ [0, 10] [[0], [10]]).1 = none ∧
    evaluateLin (fitCurveLin ⟨[], 0⟩ [0, 10] [[0], [10]]).2 10 = .ok [10] := by
  refine ⟨fun _ _ _ => rfl, fun _ _ _ => rfl, fun _ _ => rfl, fun _ _ _ => rfl,
    by decide, ?_⟩
  have hm : (fitCurveLin ⟨[], 0⟩ [0, 10] [[0], [10]]).2 =
      ⟨[⟨0, [0], 0⟩, ⟨1, [10], 10⟩], 2⟩ := by decide
  rw [hm]
  simp [evaluateLin, LocalSupport2CoefficientManager.getCoefficientsAt,
    findBracket, vaddv, vsmul]

/-- C9: the sampling policy counter invariant — whenever an `extend` call
returns (successfully; a `CHECK` failure aborts instead of returning),
`0 ≤ measurementsSinceLastExtend_ < minimumMeasurements_` still holds
(given `minimumMeasurements_ ≥ 1` and the invariant before the call),
and `minimumMeasurements_` itself is unchanged. -/
theorem extend_counter_invariant (p : SamplingPolicy)
    (mgr : LocalSupport2CoefficientManager) (ts : List Time) (vs : List Val)
    (hmin : 1 ≤ p.minimumMeasurements_)
    (hc : p.measurementsSinceLastExtend_ < p.minimumMeasurements_)
    (hok : (p.extendDiscreteSE3 mgr ts vs).1 = none) :
    (p.extendDiscreteSE3 mgr ts vs).2.1.measurementsSinceLastExtend_ <
      (p.extendDiscreteSE3 mgr ts vs).2.1.minimumMeasurements_ ∧
    (p.extendDiscreteSE3 mgr ts vs).2.1.minimumMeasurements_ =
      p.minimumMeasurements_ := by
  revert hok
  unfold SamplingPolicy.extendDiscreteSE3
  by_cases h1 : ts.length ≠ 1
  · rw [if_pos h1]
    intro _
    exact ⟨hc, rfl⟩
  · rw [if_neg h1]
    by_cases h2 : mgr.entries.length = 0 ∨ mgr.entries.length = 1
    · rw [if_pos h2]
      intro _
      exact ⟨hc, rfl⟩
    · rw [if_neg h2]
      by_cases h3 : p.minimumMeasurements_ = 1
      · rw [if_pos h3]
        intro _
        exact ⟨hc, rfl⟩
      · rw [if_neg h3]
        simp only []
        rcases hr : (if p.measurementsSinceLastExtend_ + 1 = 1
            then mgr.addCoefficientAtEnd (ts.headD 0) (vs.headD [])
            else mgr.modifyLastCoefficient (ts.headD 0) (vs.headD [])) with
          ⟨o, mgr'⟩
        cases o with
        | some e =>
          intro hok
          exact absurd hok (by simp)
        | none =>
          intro _
          refine ⟨?_, rfl⟩
          show (if p.measurementsSinceLastExtend_ + 1 = p.minimumMeasurements_
              then 0 else p.measurementsSinceLastExtend_ + 1) <
            p.minimumMeasurements_
          split_ifs <;> omega

/-- Witness for `extend_counter_invariant` at a concrete policy, curve
and single-sample extend. -/
theorem extend_counter_invariant_witness :
    (SamplingPolicy.extendDiscreteSE3 ⟨0, 3, 0⟩
        ⟨[⟨0, [0], 0⟩, ⟨1, [1], 10⟩], 2⟩ [20] [[2]]).2.1.measurementsSinceLastExtend_ <
      (SamplingPolicy.extendDiscreteSE3 ⟨0, 3, 0⟩
        ⟨[⟨0, [0], 0⟩, ⟨1, [1], 10⟩], 2⟩ [20] [[2]]).2.1.minimumMeasurements_ ∧
    (SamplingPolicy.extendDiscreteSE3 ⟨0, 3, 0⟩
        ⟨[⟨0, [0], 0⟩, ⟨1, [1], 10⟩], 2⟩ [20] [[2]]).2.1.minimumMeasurements_ = 3 :=
  extend_counter_invariant ⟨0, 3, 0⟩ ⟨[⟨0, [0], 0⟩, ⟨1, [1], 10⟩], 2⟩ [20] [[2]]
    (by decide) (by decide) (by decide)

/-- C1: decimation cycle with `minimumMeasurements_ = 3`, counter 0 and a
curve already holding at least 2 coefficients: three consecutive
single-sample extends produce exactly one net new coefficient — the
first appends a record with fresh key, the second and third overwrite
that same record's time and value in place (same key), and the counter
passes through 1, 2 and is 0 again after the third call. -/
theorem extend_decimation_cycle (es : List KeyCoefficientTime) (nk : Key)
    (per t1 t2 t3 : Time) (v1 v2 v3 : Val)
    (hlen : 2 ≤ es.length)
    (ha1 : ∀ e ∈ es, e.time < t1) (ha2 : ∀ e ∈ es, e.time < t2)
    (ha3 : ∀ e ∈ es, e.time < t3) :
    SamplingPolicy.extendDiscreteSE3 ⟨0, 3, per⟩ ⟨es, nk⟩ [t1] [v1] =
      (none, ⟨1, 3, per⟩, ⟨es ++ [⟨nk, v1, t1⟩], nk + 1⟩) ∧
    SamplingPolicy.extendDiscreteSE3 ⟨1, 3, per⟩
        ⟨es ++ [⟨nk, v1, t1⟩], nk + 1⟩ [t2] [v2] =
      (none, ⟨2, 3, per⟩, ⟨es ++ [⟨nk, v2, t2⟩], nk + 1⟩) ∧
    SamplingPolicy.extendDiscreteSE3 ⟨2, 3, per⟩
        ⟨es ++ [⟨nk, v2, t2⟩], nk + 1⟩ [t3] [v3] =
      (none, ⟨0, 3, per⟩, ⟨es ++ [⟨nk, v3, t3⟩], nk + 1⟩) ∧
    (es ++ [(⟨nk, v3, t3⟩ : KeyCoefficientTime)]).length = es.length + 1 := by
  refine ⟨?_, ?_, ?_, by simp⟩
  · have hadd : (⟨es, nk⟩ : LocalSupport2CoefficientManager).addCoefficientAtEnd
        t1 v1 = (none, ⟨es ++ [⟨nk, v1, t1⟩], nk + 1⟩) := by
      simp only [LocalSupport2CoefficientManager.addCoefficientAtEnd]
      rw [if_pos (by simp only [List.all_eq_true, decide_eq_true_eq]; exact ha1)]
    unfold SamplingPolicy.extendDiscreteSE3
    rw [if_neg (by simp)]
    rw [if_neg (by simp only []; omega)]
    rw [if_neg (by norm_num)]
    simp only [List.headD_cons]
    rw [if_pos (by norm_num)]
    rw [hadd]
    norm_num
  · have hmod : (⟨es ++ [⟨nk, v1, t1⟩], nk + 1⟩ :
        LocalSupport2CoefficientManager).modifyLastCoefficient t2 v2 =
        (none, ⟨es ++ [⟨nk, v2, t2⟩], nk + 1⟩) := by
      simp only [LocalSupport2CoefficientManager.modifyLastCoefficient]
      rw [List.getLast?_concat]
      simp only [List.dropLast_concat]
      rw [if_pos (by simp only [List.all_eq_true, decide_eq_true_eq]; exact ha2)]
    unfold SamplingPolicy.extendDiscreteSE3
    rw [if_neg (by simp)]
    rw [if_neg (by simp only [List.length_append]; omega)]
    rw [if_neg (by norm_num)]
    simp only [List.headD_cons]
    rw [if_neg (by norm_num)]
    rw [hmod]
    norm_num
  · have hmod : (⟨es ++ [⟨nk, v2, t2⟩], nk + 1⟩ :
        LocalSupport2CoefficientManager).modifyLastCoefficient t3 v3 =
        (none, ⟨es ++ [⟨nk, v3, t3⟩], nk + 1⟩) := by
      simp only [LocalSupport2CoefficientManager.modifyLastCoefficient]
      rw [List.getLast?_concat]
      simp only [List.dropLast_concat]
      rw [if_pos (by simp only [List.all_eq_true, decide_eq_true_eq]; exact ha3)]
    unfold SamplingPolicy.extendDiscreteSE3
    rw [if_neg (by simp)]
    rw [if_neg (by simp only [List.length_append]; omega)]
    rw [if_neg (by norm_num)]
    simp only [List.headD_cons]
    rw [if_neg (by norm_num)]
    rw [hmod]
    norm_num

/-- Witness for `extend_decimation_cycle` at a concrete curve and three
concrete samples. -/
theorem extend_decimation_cycle_witness :
    SamplingPolicy.extendDiscreteSE3 ⟨0, 3, 0⟩
        ⟨[⟨0, [0], 0⟩, ⟨1, [1], 10⟩], 2⟩ [20] [[2]] =
      (none, ⟨1, 3, 0⟩, ⟨[⟨0, [0], 0⟩, ⟨1, [1], 10⟩] ++ [⟨2, [[2]].headD [], 20⟩], 3⟩) ∧
    SamplingPolicy.extendDiscreteSE3 ⟨1, 3, 0⟩
        ⟨[⟨0, [0], 0⟩, ⟨1, [1], 10⟩] ++ [⟨2, [[2]].headD [], 20⟩], 3⟩ [30] [[3]] =
      (none, ⟨2, 3, 0⟩, ⟨[⟨0, [0], 0⟩, ⟨1, [1], 10⟩] ++ [⟨2, [[3]].headD [], 30⟩], 3⟩) ∧
    SamplingPolicy.extendDiscreteSE3 ⟨2, 3, 0⟩
        ⟨[⟨0, [0], 0⟩, ⟨1, [1], 10⟩] ++ [⟨2, [[3]].headD [], 30⟩], 3⟩ [40] [[4]] =
      (none, ⟨0, 3, 0⟩, ⟨[⟨0, [0], 0⟩, ⟨1, [1], 10⟩] ++ [⟨2, [[4]].headD [], 40⟩], 3⟩) ∧
    (([⟨0, [0], 0⟩, ⟨1, [1], 10⟩] : List KeyCoefficientTime) ++
      [(⟨2, [[4]].headD [], 40⟩ : KeyCoefficientTime)]).length =
      ([⟨0, [0], 0⟩, ⟨1, [1], 10⟩] : List KeyCoefficientTime).length + 1 :=
  extend_decimation_cycle [⟨0, [0], 0⟩, ⟨1, [1], 10⟩] 2 0 20 30 40 [2] [3] [4]
    (by decide) (by decide) (by decide) (by decide)

/-- C8: `evaluateDerivative(time, order)` on the discrete curve: for
`order == 1` the result is the discrete slope of the two adjacent
coefficients selected by the boundary rule — (i) time strictly between
two coefficients, or (ii) on a stored coefficient that is not the last,
selects that coefficient and its successor; (iii) on the last
coefficient selects the second-to-last and last; for every `order > 1`
the result is identically zero; and it fails when the curve has fewer
than 2 coefficients. -/
theorem evaluateDerivative_boundary_rule :
    (∀ (m : LocalSupport2CoefficientManager) (t : Time)
       (l : List KeyCoefficientTime) (a b : KeyCoefficientTime)
       (r : List KeyCoefficientTime),
       EntriesSorted m.entries → m.entries = l ++ a :: b :: r →
       a.time ≤ t → t < b.time →
       evaluateDerivativeDiscrete m t 1 =
         .ok (vsmul (1 / ((b.time - a.time : Time) : ℚ))
           (vsubv b.coefficient a.coefficient))) ∧
    (∀ (m : LocalSupport2CoefficientManager)
       (l : List KeyCoefficientTime) (a b : KeyCoefficientTime),
       EntriesSorted m.entries → m.entries = l ++ [a, b] →
       evaluateDerivativeDiscrete m b.time 1 =
         .ok (vsmul (1 / ((b.time - a.time : Time) : ℚ))
           (vsubv b.coefficient a.coefficient))) ∧
    (∀ (m : LocalSupport2CoefficientManager) (t : Time) (k : Nat),
       2 ≤ m.entries.length → 2 ≤ k →
       ∃ v, evaluateDerivativeDiscrete m t k = .ok v ∧ ∀ x ∈ v, x = 0) ∧
    (∀ (m : LocalSupport2CoefficientManager) (t : Time) (k : Nat),
       m.entries.length < 2 →
       evaluateDerivativeDiscrete m t k = .error .NotFound) := by
  refine ⟨?_, ?_, ?_, ?_⟩
  · intro m t l a b r hs hm h1 h2
    have hfb : findBracket m.entries t = some (a, b) := by
      rw [hm]
      rw [hm] at hs
      exact findBracket_of_middle l a b r t hs h1 h2
    simp only [evaluateDerivativeDiscrete]
    rw [if_neg (by
      rw [hm]
      simp only [List.length_append, List.length_cons]
      omega)]
    simp only [if_true]
    rw [hfb]
  · intro m l a b hs hm
    have hfb : findBracket m.entries b.time = some (a, b) := by
      rw [hm]
      rw [hm] at hs
      exact findBracket_of_last l a b hs
    simp only [evaluateDerivativeDiscrete]
    rw [if_neg (by
      rw [hm]
      simp only [List.length_append, List.length_cons]
      omega)]
    simp only [if_true]
    rw [hfb]
  · intro m t k hlen hk
    cases hm : m.entries with
    | nil =>
      exfalso
      rw [hm] at hlen
      simp at hlen
    | cons e rest =>
      refine ⟨e.coefficient.map (fun _ => (0 : ℚ)), ?_, by simp⟩
      simp only [evaluateDerivativeDiscrete]
      rw [if_neg (by omega), if_neg (by omega), if_pos hk, hm]
  · intro m t k hlen
    simp only [evaluateDerivativeDiscrete]
    rw [if_pos hlen]

/-- Witness for `evaluateDerivative_boundary_rule` on the curve with
coefficients at times 0, 5, 10 and values 0, 10, 40. -/
theorem evaluateDerivative_boundary_rule_witness :
    evaluateDerivativeDiscrete ⟨[⟨0, [0], 0⟩, ⟨1, [10], 5⟩, ⟨2, [40], 10⟩], 3⟩ 5 1 =
      .ok (vsmul (1 / (((⟨2, [40], 10⟩ : KeyCoefficientTime).time -
          (⟨1, [10], 5⟩ : KeyCoefficientTime).time : Time) : ℚ))
        (vsubv (⟨2, [40], 10⟩ : KeyCoefficientTime).coefficient
          (⟨1, [10], 5⟩ : KeyCoefficientTime).coefficient)) ∧
    evaluateDerivativeDiscrete ⟨[⟨0, [0], 0⟩, ⟨1, [10], 5⟩, ⟨2, [40], 10⟩], 3⟩
        (⟨2, [40], 10⟩ : KeyCoefficientTime).time 1 =
      .ok (vsmul (1 / (((⟨2, [40], 10⟩ : KeyCoefficientTime).time -
          (⟨1, [10], 5⟩ : KeyCoefficientTime).time : Time) : ℚ))
        (vsubv (⟨2, [40], 10⟩ : KeyCoefficientTime).coefficient
          (⟨1, [10], 5⟩ : KeyCoefficientTime).coefficient)) ∧
    (∃ v, evaluateDerivativeDiscrete
        ⟨[⟨0, [0], 0⟩, ⟨1, [10], 5⟩, ⟨2, [40], 10⟩], 3⟩ 7 2 = .ok v ∧
      ∀ x ∈ v, x = 0) ∧
    evaluateDerivativeDiscrete ⟨[⟨0, [3], 0⟩], 1⟩ 0 1 = .error .NotFound :=
  ⟨evaluateDerivative_boundary_rule.1
      ⟨[⟨0, [0], 0⟩, ⟨1, [10], 5⟩, ⟨2, [40], 10⟩], 3⟩ 5 [⟨0, [0], 0⟩]
      ⟨1, [10], 5⟩ ⟨2, [40], 10⟩ [] (by decide) (by decide) (by decide) (by decide),
   evaluateDerivative_boundary_rule.2.1
      ⟨[⟨0, [0], 0⟩, ⟨1, [10], 5⟩, ⟨2, [40], 10⟩], 3⟩ [⟨0, [0], 0⟩]
      ⟨1, [10], 5⟩ ⟨2, [40], 10⟩ (by decide) (by decide),
   evaluateDerivative_boundary_rule.2.2.1
      ⟨[⟨0, [0], 0⟩, ⟨1, [10], 5⟩, ⟨2, [40], 10⟩], 3⟩ 7 2 (by decide) (by decide),
   evaluateDerivative_boundary_rule.2.2.2 ⟨[⟨0, [3], 0⟩], 1⟩ 0 1 (by decide)⟩
